import Mathlib

/-!
Verification of the array-dispatch and broadcasting core of this repository.

The stride-manipulation component is embedded from
src/numpy/lib/stride_tricks.py (as_strided, broadcast_arrays,
rolling_window).  Arrays are modelled by their observable header metadata:
a shape vector (naturals), a stride vector (integers, in bytes), an
identifier of the base buffer the view borrows, and a type tag (0 denotes
the library's base array class, any other value a subclass).  Element data
and dtype are not needed by any claim: as_strided copies the source's
dtype through the interface dictionary unchanged (its void-kind branch
merely restores x.dtype, so the result dtype always equals the source's).

The override resolver and dispatch gate (numpy.core.overrides) have no
implementation under src/ - only their test suite
src/numpy/core/tests/test_overrides.py - so those components are modelled
from the specification, pinned by the behaviour the tests demand.
-/

/-- An array view header: shape, strides, base-buffer identifier and the
type tag of the wrapping class (0 = base ndarray class). -/
structure ArrayView where
  shape : List Nat
  strides : List Int
  base : Nat
  typeTag : Nat
deriving Repr, DecidableEq

instance : Inhabited ArrayView := ⟨⟨[], [], 0, 0⟩⟩

/-- Coercion np.array(x, copy=False, subok=subok) applied to an existing
array view: never copies, keeps shape/strides/buffer; with subok=False the
result is re-tagged as the base class, with subok=True the subclass tag is
passed through. -/
def np_array (subok : Bool) (x : ArrayView) : ArrayView :=
  if subok then x else { x with typeTag := 0 }

/-- as_strided (src/numpy/lib/stride_tricks.py lines 23-45): coerce the
input, copy its interface dictionary, override shape and/or strides when
given, and rebuild a view over the same base buffer.  The result carries
the coerced input's type tag (the source re-views the result as type(x)
and runs the finalize hook when the types differ). -/
def as_strided (x : ArrayView) (shape : Option (List Nat))
    (strides : Option (List Int)) (subok : Bool) : ArrayView :=
  let x := np_array subok x
  { shape := shape.getD x.shape
    strides := strides.getD x.strides
    base := x.base
    typeTag := x.typeTag }

/-- Failures of broadcast_arrays.  unexpectedKeyword models the TypeError
raised for a keyword other than subok; emptyOperands models the ValueError
Python's max() raises on the empty dimensionality list when no operand is
given; shapeMismatch carries the axis named by the ValueError message. -/
inductive BroadcastError where
  | unexpectedKeyword (key : String)
  | emptyOperands
  | shapeMismatch (axis : Nat)
deriving Repr, DecidableEq

/-- Left-pad a shape with length-1 axes up to the common dimensionality
(broadcast_arrays lines 105-109). -/
def padded_shapes (biggest : Nat) (shapes : List (List Nat)) : List (List Nat) :=
  shapes.map (fun s => List.replicate (biggest - s.length) 1 ++ s)

/-- Left-pad each stride vector with zero strides up to the common
dimensionality (broadcast_arrays lines 105-109). -/
def padded_strides (biggest : Nat) (strides : List (List Int)) : List (List Int) :=
  strides.map (fun st => List.replicate (biggest - st.length) (0 : Int) ++ st)

/-- The lengths contributed by every operand at each axis: one column per
axis position ([s[axis] for s in shapes], line 114). -/
def shape_columns (biggest : Nat) (pshapes : List (List Nat)) : List (List Nat) :=
  (List.range biggest).map (fun i => pshapes.map (fun s => s.getD i 1))

/-- set(lengths + [1]) of line 115, as a duplicate-free list. -/
def axisUnique (lengths : List Nat) : List Nat :=
  (lengths ++ [1]).dedup

/-- The common length the axis takes: the unique non-1 member of
set(lengths + [1]) when one exists (lines 123-124), otherwise 1. -/
def axisCommon (lengths : List Nat) : Nat :=
  ((axisUnique lengths).filter (fun n => n ≠ 1)).headD 1

/-- The compatibility check of lines 113-136, which also accumulates
common_shape: walk the axis columns in order; an axis whose length set
(with 1 adjoined) has more than two members aborts with ShapeMismatchError
naming that axis; otherwise the axis contributes its common length. -/
def checkAxes : List (List Nat) → Nat → Except BroadcastError (List Nat)
  | [], _ => .ok []
  | col :: rest, axis =>
    if 2 < (axisUnique col).length then
      .error (.shapeMismatch axis)
    else do
      let cs ← checkAxes rest (axis + 1)
      .ok ((if (axisUnique col).length == 2 then axisCommon col else 1) :: cs)

/-- Per-axis shape update of lines 129-131: an operand of length 1 on an
axis that has exactly one non-1 length takes that common length. -/
def bcastLen (col : List Nat) (len : Nat) : Nat :=
  if (axisUnique col).length == 2 && len == 1 then axisCommon col else len

/-- Per-axis stride update of lines 129-132: an operand broadcast from
length 1 on this axis gets stride 0 so that it repeats its data. -/
def bcastStride (col : List Nat) (p : Nat × Int) : Int :=
  if (axisUnique col).length == 2 && p.1 == 1 then 0 else p.2

/-- broadcast_arrays (src/numpy/lib/stride_tricks.py lines 47-141).
kwargs is the list of keyword-argument names supplied beyond the operands;
subok holds the value popped for the subok keyword.  The axis loop of the
source mutates shapes[i][axis] / strides[i][axis] in place; here the same
per-axis decisions are rendered as checkAxes (the error check and
common_shape) plus the pointwise updates bcastLen / bcastStride applied to
each operand's padded vectors. -/
def broadcast_arrays (kwargs : List String) (subok : Bool)
    (args0 : List ArrayView) : Except BroadcastError (List ArrayView) :=
  match (kwargs.filter (fun k => k ≠ "subok")) with
  | k :: _ => .error (.unexpectedKeyword k)
  | [] =>
    let args := args0.map (np_array subok)
    let shapes := args.map (·.shape)
    if shapes.dedup.length == 1 then
      .ok args
    else if args.length = 0 then
      .error .emptyOperands
    else
      let biggest := (shapes.map List.length).foldl Nat.max 0
      let pshapes := padded_shapes biggest shapes
      let pstrides := padded_strides biggest (args.map (·.strides))
      let cols := shape_columns biggest pshapes
      match checkAxes cols 0 with
      | .error e => .error e
      | .ok _ =>
        .ok (List.zipWith
          (fun a p => as_strided a (some (List.zipWith bcastLen cols p.1))
            (some (List.zipWith bcastStride cols (p.1.zip p.2))) subok)
          args (pshapes.zip pstrides))

/-- Failures of rolling_window: the two explicit ValueErrors of lines
172-175, and the IndexError a scalar input hits when a.shape[-1] is read
from an empty shape tuple. -/
inductive RollingError where
  | windowTooSmall
  | windowTooLong
  | indexError
deriving Repr, DecidableEq

/-- rolling_window (src/numpy/lib/stride_tricks.py lines 143-178): adds a
trailing window dimension by appending the last stride once more, without
copying.  as_strided is called with its default subok=False. -/
def rolling_window (a : ArrayView) (window : Int) : Except RollingError ArrayView :=
  if window < 1 then .error .windowTooSmall
  else
    match a.shape.getLast? with
    | none => .error .indexError
    | some last =>
      if (last : Int) < window then .error .windowTooLong
      else
        .ok (as_strided a
          (some (a.shape.dropLast ++ [((last : Int) - window + 1).toNat, window.toNat]))
          (some (a.strides ++ [a.strides.getLastD 0]))
          false)

/-! Specification-level vocabulary for the broadcasting claims: the
relevant right-aligned columns and the common shape, used to state the
theorems. -/

/-- The maximum dimensionality among the operands (max(nds), line 102). -/
def ndimMax (args : List ArrayView) : Nat :=
  ((args.map (·.shape)).map List.length).foldl Nat.max 0

/-- The left-padded shape of one operand at the common dimensionality. -/
def paddedShape (n : Nat) (a : ArrayView) : List Nat :=
  List.replicate (n - a.shape.length) 1 ++ a.shape

/-- The left-padded stride vector of one operand at the common
dimensionality. -/
def paddedStrides (n : Nat) (a : ArrayView) : List Int :=
  List.replicate (n - a.strides.length) (0 : Int) ++ a.strides

/-- The lengths the operands contribute at one axis, after
right-alignment. -/
def axisColumn (args : List ArrayView) (i : Nat) : List Nat :=
  (padded_shapes (ndimMax args) (args.map (·.shape))).map (fun s => s.getD i 1)

/-- All axis columns of an operand list, axis-major. -/
def axisColumns (args : List ArrayView) : List (List Nat) :=
  (List.range (ndimMax args)).map (fun i => axisColumn args i)

/-- The common broadcast shape: per axis, the unique non-1 contributed
length, or 1 when every operand contributes 1. -/
def commonShape (args : List ArrayView) : List Nat :=
  (axisColumns args).map axisCommon

/-- One axis is broadcast-compatible when all contributed lengths agree up
to occurrences of 1 (the hypothesis vocabulary of the claims). -/
def AxisCompatible (col : List Nat) : Prop :=
  ∀ x ∈ col, ∀ y ∈ col, x = y ∨ x = 1 ∨ y = 1

instance (col : List Nat) : Decidable (AxisCompatible col) := by
  unfold AxisCompatible
  infer_instance

/-- The first axis whose length set rules broadcasting out, as named by
the ShapeMismatchError. -/
def firstBadAxis (args : List ArrayView) : Nat :=
  (axisColumns args).findIdx (fun c => decide (2 < (axisUnique c).length))

/-- What a successful broadcast looks like, per operand: the common
shape, the same base buffer, and strides of the common dimensionality
where an axis broadcast from length 1 (against a non-1 common length) has
stride 0 and every other axis keeps its padded stride. -/
def BroadcastOutputSpec (args : List ArrayView) (out : List ArrayView) : Prop :=
  out.length = args.length ∧
  ∀ j, j < args.length →
    (out.getD j default).shape = commonShape args ∧
    (out.getD j default).base = (args.getD j default).base ∧
    (out.getD j default).strides.length = ndimMax args ∧
    ∀ i, i < ndimMax args →
      (out.getD j default).strides.getD i 0 =
        (if (paddedShape (ndimMax args) (args.getD j default)).getD i 1 = 1 ∧
            (commonShape args).getD i 1 ≠ 1
         then 0
         else (paddedStrides (ndimMax args) (args.getD j default)).getD i 0)

/-- The common length of one axis as the C1 claim words it: the unique
length strictly greater than 1 contributed at the axis, or 1 if none. -/
def literalCommonAxis (col : List Nat) : Nat :=
  match (col.filter (fun n => 1 < n)).dedup with
  | [x] => x
  | _ => 1

/-- The common shape as the C1 claim words it. -/
def literalCommonShape (args : List ArrayView) : List Nat :=
  (axisColumns args).map literalCommonAxis

/-- The conclusion of claim C1 read literally: broadcast succeeds with one
view per operand, every view takes the claim's common shape, and every
operand whose right-aligned length at an axis was 1 ends with stride 0 on
that axis. -/
def C1LiteralConclusion (args : List ArrayView) : Prop :=
  ∃ out, broadcast_arrays [] false args = .ok out ∧
    out.length = args.length ∧
    ∀ j, j < args.length →
      (out.getD j default).shape = literalCommonShape args ∧
      ∀ i, i < ndimMax args →
        (paddedShape (ndimMax args) (args.getD j default)).getD i 1 = 1 →
          (out.getD j default).strides.getD i 0 = 0

/-! The override resolver and dispatch gate.  Their implementation
(numpy.core.overrides) is not under src/; these definitions are modelled
from the specification (sections 4.3 and 4.4), with every behaviour pinned
by src/numpy/core/tests/test_overrides.py.  A participating type is a
natural-number identifier; the subclass relation between type identifiers
is supplied explicitly, as the spec's registered-subtype design note
prescribes. -/

/-- One operand relevant to a dispatched call: its runtime type identifier
and an instance identifier distinguishing distinct objects of one type. -/
structure Arg where
  ty : Nat
  inst : Nat
deriving Repr, DecidableEq

instance : Inhabited Arg := ⟨⟨0, 0⟩⟩

/-- Modelled from the spec: failure of OverrideResolver - more than 32
distinct candidate types presented to one call
(TooManyCandidateTypesError). -/
inductive OverrideError where
  | tooManyTypes
deriving Repr, DecidableEq

/-- Modelled from the spec: insert a new candidate right before the first
already-placed candidate of which it is a subclass, else append at the
end (spec section 4.3, ordering rule). -/
def insertCandidate (sub : Nat → Nat → Bool) (placed : List Arg) (arg : Arg) : List Arg :=
  placed.insertIdx (placed.findIdx (fun old => sub arg.ty old.ty)) arg

/-- Modelled from the spec: one scan step of the resolver.  The state is
the list of distinct candidate types seen so far together with the placed
representative candidates.  An argument whose type declares the override
capability and has not been seen yet registers its type and is inserted by
the ordering rule; every other argument is skipped.  The tests pin that
instances of the base array type participate like any other capable type
(test_ndarray, test_ndarray_subclasses). -/
def implementingStep (sub : Nat → Nat → Bool) (hasOv : Nat → Bool)
    (st : List Nat × List Arg) (arg : Arg) : List Nat × List Arg :=
  if hasOv arg.ty && !(st.1.contains arg.ty) then
    (st.1 ++ [arg.ty], insertCandidate sub st.2 arg)
  else st

/-- Modelled from the spec: the left-to-right scan of the relevant
arguments. -/
def scanArgs (sub : Nat → Nat → Bool) (hasOv : Nat → Bool)
    (args : List Arg) : List Nat × List Arg :=
  args.foldl (implementingStep sub hasOv) ([], [])

/-- Modelled from the spec: resolveCandidates / _get_implementing_args.
Scans the relevant arguments, then enforces the hard cap of 32 distinct
candidate types (test_too_many_duck_arrays: 32 distinct types succeed, 33
raise). -/
def get_implementing_args (sub : Nat → Nat → Bool) (hasOv : Nat → Bool)
    (args : List Arg) : Except OverrideError (List Arg) :=
  let st := scanArgs sub hasOv args
  if 32 < st.1.length then .error .tooManyTypes else .ok st.2

/-- Modelled from the spec: the three outcomes of offering the call to one
candidate's override hook - a concrete result, the explicit
not-implemented sentinel, or an arbitrary propagated failure. -/
inductive HookResult where
  | claimed (v : Nat)
  | declined
  | raised (e : Nat)
deriving Repr, DecidableEq

/-- Modelled from the spec: terminal failures of the dispatch gate. -/
inductive DispatchError where
  | tooManyTypes
  | hookRaised (e : Nat)
  | noImplementation (module : String) (name : String)
deriving Repr, DecidableEq

/-- Modelled from the spec: offer the call to each candidate in priority
order; a concrete result is accepted, the sentinel moves on to the next
candidate, any other failure propagates; when every candidate has
declined, fail with NoImplementationFoundError naming the call's module
and qualified name (spec section 4.4, TRYING state). -/
def tryCandidates (hooks : Arg → HookResult) (module : String) (name : String) :
    List Arg → Except DispatchError Nat
  | [] => .error (.noImplementation module name)
  | c :: rest =>
    match hooks c with
    | .claimed v => .ok v
    | .declined => tryCandidates hooks module name rest
    | .raised e => .error (.hookRaised e)

/-- Modelled from the spec: the dispatch gate.  Resolution failure
propagates; an empty candidate list goes straight to the default
implementation; otherwise the candidates are tried in order. -/
def dispatch (sub : Nat → Nat → Bool) (hasOv : Nat → Bool)
    (module : String) (name : String) (hooks : Arg → HookResult)
    (defaultImpl : Nat) (args : List Arg) : Except DispatchError Nat :=
  match get_implementing_args sub hasOv args with
  | .error .tooManyTypes => .error .tooManyTypes
  | .ok [] => .ok defaultImpl
  | .ok cands => tryCandidates hooks module name cands

/-- The concrete subclass relation used by witnesses and counterexamples:
type 1 is a strict subclass of type 0, type 2 is a strict subclass of type
0, and every type is a subclass of itself. -/
def subDemo : Nat → Nat → Bool :=
  fun x y => x == y || ((x == 1 || x == 2) && y == 0)

/-! Basic facts about the coercion and view construction. -/

theorem np_array_shape (subok : Bool) (x : ArrayView) : (np_array subok x).shape = x.shape := by
  unfold np_array; split <;> rfl

theorem np_array_strides (subok : Bool) (x : ArrayView) : (np_array subok x).strides = x.strides := by
  unfold np_array; split <;> rfl

theorem np_array_base (subok : Bool) (x : ArrayView) : (np_array subok x).base = x.base := by
  unfold np_array; split <;> rfl

/-- C8: calling asStridedView with no shape and no strides overrides
returns a view observably equivalent to the input - same shape, same
strides, same base buffer (idempotence of the view constructor under
default arguments, subok defaulting to False). -/
theorem as_strided_default_identity (x : ArrayView) :
    (as_strided x none none false).shape = x.shape ∧
    (as_strided x none none false).strides = x.strides ∧
    (as_strided x none none false).base = x.base := by
  refine ⟨?_, ?_, ?_⟩ <;> simp [as_strided, np_array_shape, np_array_strides, np_array_base]

/-- C10: any keyword argument other than subok makes broadcast_arrays
raise a TypeError at once, whatever the operands are - no coercion, no
compatibility check and no view construction happens first. -/
theorem broadcast_arrays_rejects_unknown_kwargs (kwargs : List String) (subok : Bool)
    (args : List ArrayView) (h : ∃ k ∈ kwargs, k ≠ "subok") :
    ∃ k ∈ kwargs, k ≠ "subok" ∧
      broadcast_arrays kwargs subok args = .error (.unexpectedKeyword k) := by
  obtain ⟨k0, hk0, hk0ne⟩ := h
  have hmem : k0 ∈ kwargs.filter (fun k => k ≠ "subok") := by
    rw [List.mem_filter]
    exact ⟨hk0, by simpa using hk0ne⟩
  rcases hfe : kwargs.filter (fun k => k ≠ "subok") with _ | ⟨k, rest⟩
  · rw [hfe] at hmem; cases hmem
  · have hkmem : k ∈ kwargs.filter (fun k => k ≠ "subok") := by
      rw [hfe]; exact List.mem_cons_self _ _
    rw [List.mem_filter] at hkmem
    refine ⟨k, hkmem.1, by simpa using hkmem.2, ?_⟩
    unfold broadcast_arrays
    rw [hfe]

/-- Witness for C10: the keyword dtype is rejected even though the two
operands would otherwise broadcast fine. -/
theorem broadcast_arrays_rejects_unknown_kwargs_witness :
    ∃ k ∈ ["dtype"], k ≠ "subok" ∧
      broadcast_arrays ["dtype"] false [⟨[3], [8], 0, 0⟩, ⟨[1], [8], 1, 0⟩] =
        .error (.unexpectedKeyword k) :=
  broadcast_arrays_rejects_unknown_kwargs ["dtype"] false
    [⟨[3], [8], 0, 0⟩, ⟨[1], [8], 1, 0⟩] ⟨"dtype", by decide, by decide⟩

/-- C9: on an array with at least one dimension, rolling_window with
1 <= window <= a.shape[-1] returns a no-copy view of a with shape
a.shape[:-1] + (a.shape[-1] - window + 1, window) and strides
a.strides + (a.strides[-1],); a window below 1 or beyond the last axis
raises a ValueError instead. -/
theorem rolling_window_spec (a : ArrayView) (window : Int)
    (ha : a.shape ≠ []) (hs : a.strides ≠ []) :
    (1 ≤ window → window ≤ (a.shape.getLast ha : Int) →
      rolling_window a window = .ok
        { shape := a.shape.dropLast ++
            [((a.shape.getLast ha : Int) - window + 1).toNat, window.toNat]
          strides := a.strides ++ [a.strides.getLast hs]
          base := a.base
          typeTag := 0 }) ∧
    (window < 1 → rolling_window a window = .error .windowTooSmall) ∧
    ((a.shape.getLast ha : Int) < window → rolling_window a window = .error .windowTooLong) := by
  have hlast : a.shape.getLast? = some (a.shape.getLast ha) := List.getLast?_eq_getLast _ _
  have hlastD : a.strides.getLastD 0 = a.strides.getLast hs := by
    rw [List.getLastD_eq_getLast?, List.getLast?_eq_getLast _ hs]
    rfl
  refine ⟨fun h1 h2 => ?_, fun h => ?_, fun h => ?_⟩
  · unfold rolling_window
    rw [if_neg (by omega), hlast]
    simp only [if_neg (by omega : ¬((a.shape.getLast ha : Int) < window))]
    simp [as_strided, np_array, List.getLastD_eq_getLast?, List.getLast?_eq_getLast _ hs]
  · unfold rolling_window
    rw [if_pos h]
  · unfold rolling_window
    rw [if_neg (by omega), hlast]
    simp only [if_pos h]

/-- Witness for C9: a (2,5) array of 8-byte elements with window 3 gives
the (2,3,3) view of the docstring example; windows 0 and 6 raise. -/
theorem rolling_window_spec_witness :
    rolling_window ⟨[2, 5], [40, 8], 7, 0⟩ 3 = .ok ⟨[2, 3, 3], [40, 8, 8], 7, 0⟩ ∧
    rolling_window ⟨[2, 5], [40, 8], 7, 0⟩ 0 = .error .windowTooSmall ∧
    rolling_window ⟨[2, 5], [40, 8], 7, 0⟩ 6 = .error .windowTooLong := by
  refine ⟨?_, ?_, ?_⟩
  · have h := (rolling_window_spec ⟨[2, 5], [40, 8], 7, 0⟩ 3 (by decide) (by decide)).1
      (by decide) (by decide)
    rw [h]
    rfl
  · exact (rolling_window_spec ⟨[2, 5], [40, 8], 7, 0⟩ 0 (by decide) (by decide)).2.1 (by decide)
  · exact (rolling_window_spec ⟨[2, 5], [40, 8], 7, 0⟩ 6 (by decide) (by decide)).2.2 (by decide)

/-! List helpers shared by the broadcasting proofs. -/

theorem eq_singleton_of_forall_eq {α : Type} {l : List α} {x : α}
    (hn : l.Nodup) (hx : x ∈ l) (hall : ∀ z ∈ l, z = x) : l = [x] := by
  cases l with
  | nil => cases hx
  | cons a t =>
    have ha : a = x := hall a (List.mem_cons_self _ _)
    subst ha
    cases t with
    | nil => rfl
    | cons b t2 =>
      have hb : b = a := hall b (by simp)
      exact absurd (hb ▸ List.mem_cons_self b t2) (List.nodup_cons.mp hn).1

theorem dedup_of_forall_eq {α : Type} [DecidableEq α] {l : List α} {c : α}
    (hne : l ≠ []) (hall : ∀ z ∈ l, z = c) : l.dedup = [c] := by
  obtain ⟨a, ha⟩ := List.exists_mem_of_ne_nil l hne
  refine eq_singleton_of_forall_eq (List.nodup_dedup l) ?_ ?_
  · exact List.mem_dedup.mpr (hall a ha ▸ ha)
  · intro z hz
    exact hall z (List.mem_dedup.mp hz)

theorem foldl_max_of_forall_eq {c : Nat} :
    ∀ (l : List Nat), l ≠ [] → (∀ x ∈ l, x = c) →
      ∀ acc, l.foldl Nat.max acc = Nat.max acc c := by
  intro l
  induction l with
  | nil => intro h; cases h rfl
  | cons a t ih =>
    intro _ hall acc
    have ha : a = c := hall a (by simp)
    subst ha
    cases t with
    | nil => rfl
    | cons b t2 =>
      have := ih (by simp) (fun x hx => hall x (by simp [hx])) (Nat.max acc a)
      rw [List.foldl_cons, this]
      simp only [Nat.max_def]
      split_ifs <;> omega

theorem getD_map_of_lt {α β : Type} (f : α → β) (l : List α) (j : Nat)
    (h : j < l.length) (d : β) (d' : α) : (l.map f).getD j d = f (l.getD j d') := by
  rw [List.getD_eq_getElem (l.map f) d (by simpa using h),
    List.getD_eq_getElem l d' h, List.getElem_map]

theorem map_shape_np_array (subok : Bool) (args : List ArrayView) :
    (args.map (np_array subok)).map (fun a => a.shape) = args.map (fun a => a.shape) := by
  rw [List.map_map]
  exact List.map_congr_left (fun a _ => np_array_shape subok a)

/-- The fast path of broadcast_arrays (lines 94-98): identical shapes
short-circuit to the coerced operands. -/
theorem broadcast_arrays_fast_path (subok : Bool) (args : List ArrayView) (s : List Nat)
    (hne : args ≠ []) (heq : ∀ a ∈ args, a.shape = s) :
    broadcast_arrays [] subok args = .ok (args.map (np_array subok)) := by
  have hded : ((args.map (np_array subok)).map (fun a => a.shape)).dedup = [s] := by
    rw [map_shape_np_array]
    refine dedup_of_forall_eq (by simpa using hne) ?_
    intro z hz
    rw [List.mem_map] at hz
    obtain ⟨a, ha, rfl⟩ := hz
    exact heq a ha
  unfold broadcast_arrays
  simp only [List.filter_nil, hded]
  rfl

/-- C7: when every operand already has one identical shape,
broadcast_arrays takes the fast path and returns the coerced operands
themselves - shape, strides and base buffer of each returned view are
identical to those of the corresponding input. -/
theorem broadcast_arrays_identical_shapes (subok : Bool) (args : List ArrayView)
    (s : List Nat) (hne : args ≠ []) (heq : ∀ a ∈ args, a.shape = s) :
    broadcast_arrays [] subok args = .ok (args.map (np_array subok)) ∧
    (args.map (np_array subok)).length = args.length ∧
    ∀ j, j < args.length →
      ((args.map (np_array subok)).getD j default).shape = (args.getD j default).shape ∧
      ((args.map (np_array subok)).getD j default).strides = (args.getD j default).strides ∧
      ((args.map (np_array subok)).getD j default).base = (args.getD j default).base := by
  refine ⟨broadcast_arrays_fast_path subok args s hne heq, List.length_map _ _, ?_⟩
  intro j hj
  rw [getD_map_of_lt (np_array subok) args j hj default default]
  exact ⟨np_array_shape subok _, np_array_strides subok _, np_array_base subok _⟩

/-- Witness for C7: two distinct (2,3) views, one a subclass, pass through
the fast path with metadata untouched. -/
theorem broadcast_arrays_identical_shapes_witness :
    broadcast_arrays [] false [⟨[2, 3], [24, 8], 0, 5⟩, ⟨[2, 3], [12, 4], 1, 0⟩] =
      .ok [⟨[2, 3], [24, 8], 0, 0⟩, ⟨[2, 3], [12, 4], 1, 0⟩] ∧
    broadcast_arrays [] true [⟨[2, 3], [24, 8], 0, 5⟩, ⟨[2, 3], [12, 4], 1, 0⟩] =
      .ok [⟨[2, 3], [24, 8], 0, 5⟩, ⟨[2, 3], [12, 4], 1, 0⟩] := by
  constructor
  · rw [(broadcast_arrays_identical_shapes false
      [⟨[2, 3], [24, 8], 0, 5⟩, ⟨[2, 3], [12, 4], 1, 0⟩] [2, 3]
      (by decide) (by decide)).1]
    rfl
  · rw [(broadcast_arrays_identical_shapes true
      [⟨[2, 3], [24, 8], 0, 5⟩, ⟨[2, 3], [12, 4], 1, 0⟩] [2, 3]
      (by decide) (by decide)).1]
    rfl

/-! Per-axis facts about the length set, the common length and the
pointwise updates. -/

theorem mem_axisUnique_of_mem {col : List Nat} {x : Nat} (hx : x ∈ col) :
    x ∈ axisUnique col :=
  List.mem_dedup.mpr (List.mem_append_left _ hx)

theorem one_mem_axisUnique (col : List Nat) : (1 : Nat) ∈ axisUnique col :=
  List.mem_dedup.mpr (List.mem_append_right _ (by simp))

theorem mem_col_or_one_of_mem_axisUnique {col : List Nat} {z : Nat}
    (hz : z ∈ axisUnique col) : z ∈ col ∨ z = 1 := by
  rcases List.mem_append.mp (List.mem_dedup.mp hz) with h | h
  · exact Or.inl h
  · exact Or.inr (by simpa using h)

theorem axisUnique_all_one {col : List Nat} (h : ∀ z ∈ col, z = 1) :
    axisUnique col = [1] := by
  refine dedup_of_forall_eq (by simp) ?_
  intro z hz
  rcases List.mem_append.mp hz with hc | h1
  · exact h z hc
  · simpa using h1

theorem axisCommon_all_one {col : List Nat} (h : ∀ z ∈ col, z = 1) :
    axisCommon col = 1 := by
  rw [axisCommon, axisUnique_all_one h]
  rfl

theorem axisUnique_spec_two {col : List Nat} {x : Nat}
    (hc : AxisCompatible col) (hx : x ∈ col) (hx1 : x ≠ 1) :
    (axisUnique col).length = 2 ∧ axisCommon col = x := by
  have hmem : ∀ z ∈ axisUnique col, z = 1 ∨ z = x := by
    intro z hz
    rcases mem_col_or_one_of_mem_axisUnique hz with hzc | hz1
    · rcases hc x hx z hzc with h | h | h
      · exact Or.inr h.symm
      · exact absurd h hx1
      · exact Or.inl h
    · exact Or.inl hz1
  have hfil : (axisUnique col).filter (fun n => n ≠ 1) = [x] := by
    refine eq_singleton_of_forall_eq ((List.nodup_dedup _).filter _) ?_ ?_
    · rw [List.mem_filter]
      exact ⟨mem_axisUnique_of_mem hx, by simpa using hx1⟩
    · intro z hz
      rw [List.mem_filter] at hz
      rcases hmem z hz.1 with h | h
      · exact absurd h (by simpa using hz.2)
      · exact h
  constructor
  · have hnd : (axisUnique col).Nodup := List.nodup_dedup _
    have hset : (axisUnique col).toFinset = {1, x} := by
      ext z
      simp only [List.mem_toFinset, Finset.mem_insert, Finset.mem_singleton]
      constructor
      · exact hmem z
      · rintro (rfl | rfl)
        · exact one_mem_axisUnique col
        · exact mem_axisUnique_of_mem hx
    have hcard : (axisUnique col).toFinset.card = 2 :=
      hset ▸ Finset.card_pair (fun h => hx1 h.symm)
    rw [← List.toFinset_card_of_nodup hnd, hcard]
  · rw [axisCommon, hfil]
    rfl

theorem axisUnique_length_pos (col : List Nat) : 0 < (axisUnique col).length :=
  List.length_pos.mpr (List.ne_nil_of_mem (one_mem_axisUnique col))

theorem axisUnique_length_le_two {col : List Nat} (hc : AxisCompatible col) :
    (axisUnique col).length ≤ 2 := by
  by_cases hall : ∀ z ∈ col, z = 1
  · rw [axisUnique_all_one hall]
    decide
  · push_neg at hall
    obtain ⟨x, hx, hx1⟩ := hall
    exact le_of_eq (axisUnique_spec_two hc hx hx1).1

theorem axisCommon_of_length_ne_two {col : List Nat} (hc : AxisCompatible col)
    (h : (axisUnique col).length ≠ 2) : axisCommon col = 1 := by
  by_cases hall : ∀ z ∈ col, z = 1
  · exact axisCommon_all_one hall
  · push_neg at hall
    obtain ⟨x, hx, hx1⟩ := hall
    exact absurd (axisUnique_spec_two hc hx hx1).1 h

theorem bcastLen_eq_axisCommon {col : List Nat} {v : Nat}
    (hc : AxisCompatible col) (hv : v ∈ col) : bcastLen col v = axisCommon col := by
  by_cases hall : ∀ z ∈ col, z = 1
  · have h1 : v = 1 := hall v hv
    rw [bcastLen, axisUnique_all_one hall, axisCommon_all_one hall]
    simp [h1]
  · push_neg at hall
    obtain ⟨x, hx, hx1⟩ := hall
    obtain ⟨hlen, hcom⟩ := axisUnique_spec_two hc hx hx1
    rw [bcastLen, hlen]
    by_cases hv1 : v = 1
    · simp [hv1]
    · have hvx : v = x := by
        rcases hc v hv x hx with h | h | h
        · exact h
        · exact absurd h hv1
        · exact absurd h hx1
      simp [hv1, hvx, hcom]

theorem bcastStride_spec {col : List Nat} {v : Nat} {st : Int}
    (hc : AxisCompatible col) :
    bcastStride col (v, st) = if v = 1 ∧ axisCommon col ≠ 1 then 0 else st := by
  by_cases hall : ∀ z ∈ col, z = 1
  · rw [bcastStride, axisUnique_all_one hall]
    simp [axisCommon_all_one hall]
  · push_neg at hall
    obtain ⟨x, hx, hx1⟩ := hall
    obtain ⟨hlen, hcom⟩ := axisUnique_spec_two hc hx hx1
    rw [bcastStride, hlen, hcom]
    by_cases hv1 : v = 1
    · simp [hv1, hx1]
    · simp [hv1]

theorem checkAxes_ok : ∀ (cols : List (List Nat)) (k : Nat),
    (∀ c ∈ cols, AxisCompatible c) →
    checkAxes cols k = .ok (cols.map axisCommon) := by
  intro cols
  induction cols with
  | nil => intro k _; rfl
  | cons c rest ih =>
    intro k hcomp
    have hc : AxisCompatible c := hcomp c (by simp)
    have hle := axisUnique_length_le_two hc
    rw [checkAxes, if_neg (by omega)]
    rw [ih (k + 1) (fun d hd => hcomp d (by simp [hd]))]
    show Except.ok _ = _
    have hhead : (if (axisUnique c).length == 2 then axisCommon c else 1) = axisCommon c := by
      by_cases h2 : (axisUnique c).length = 2
      · simp [h2]
      · simp only [beq_iff_eq, if_neg h2]
        exact (axisCommon_of_length_ne_two hc h2).symm
    rw [hhead]
    rfl

theorem map_strides_np_array (subok : Bool) (args : List ArrayView) :
    (args.map (np_array subok)).map (fun a => a.strides) = args.map (fun a => a.strides) := by
  rw [List.map_map]
  exact List.map_congr_left (fun a _ => np_array_strides subok a)

/-- The slow path of broadcast_arrays, written in terms of the
specification-level column vocabulary. -/
theorem broadcast_arrays_main_path (subok : Bool) (args0 : List ArrayView)
    (hne : args0 ≠ [])
    (hneq : ((args0.map (fun a => a.shape)).dedup).length ≠ 1) :
    broadcast_arrays [] subok args0 =
      match checkAxes (axisColumns args0) 0 with
      | .error e => .error e
      | .ok _ =>
        .ok (List.zipWith
          (fun a p => as_strided a (some (List.zipWith bcastLen (axisColumns args0) p.1))
            (some (List.zipWith bcastStride (axisColumns args0) (p.1.zip p.2))) subok)
          (args0.map (np_array subok))
          ((padded_shapes (ndimMax args0) (args0.map (fun a => a.shape))).zip
            (padded_strides (ndimMax args0) (args0.map (fun a => a.strides))))) := by
  unfold broadcast_arrays
  simp only [List.filter_nil]
  rw [map_shape_np_array, map_strides_np_array]
  rw [if_neg (by simpa using hneq)]
  rw [if_neg (by simpa using hne)]
  rfl

theorem axisUnique_length_gt_two {col : List Nat} {x y : Nat}
    (hx : x ∈ col) (hy : y ∈ col) (hxy : x ≠ y) (hx1 : x ≠ 1) (hy1 : y ≠ 1) :
    2 < (axisUnique col).length := by
  have hsub : ({1, x, y} : Finset Nat) ⊆ (axisUnique col).toFinset := by
    intro z hz
    rw [List.mem_toFinset]
    simp only [Finset.mem_insert, Finset.mem_singleton] at hz
    rcases hz with rfl | rfl | rfl
    · exact one_mem_axisUnique col
    · exact mem_axisUnique_of_mem hx
    · exact mem_axisUnique_of_mem hy
  have hcard : ({1, x, y} : Finset Nat).card = 3 := by
    rw [Finset.card_insert_of_not_mem (by simp [Ne.symm hx1, Ne.symm hy1]),
      Finset.card_pair hxy]
  have hle : 3 ≤ (axisUnique col).toFinset.card := hcard ▸ Finset.card_le_card hsub
  have hnd : (axisUnique col).Nodup := List.nodup_dedup _
  rw [List.toFinset_card_of_nodup hnd] at hle
  omega

theorem exists_two_non_one_of_gt_two {col : List Nat}
    (h : 2 < (axisUnique col).length) :
    ∃ x ∈ col, ∃ y ∈ col, x ≠ y ∧ x ≠ 1 ∧ y ≠ 1 := by
  have hnd : (axisUnique col).Nodup := List.nodup_dedup _
  rcases hu : axisUnique col with _ | ⟨a, _ | ⟨b, _ | ⟨c, rest⟩⟩⟩
  · rw [hu] at h; simp at h
  · rw [hu] at h; simp at h
  · rw [hu] at h; simp at h
  · rw [hu] at hnd
    have hab : a ≠ b := by
      intro hEq
      exact (List.nodup_cons.mp hnd).1 (hEq ▸ List.mem_cons_self b (c :: rest))
    have hac : a ≠ c := by
      intro hEq
      exact (List.nodup_cons.mp hnd).1 (by simp [hEq])
    have hbc : b ≠ c := by
      intro hEq
      exact (List.nodup_cons.mp (List.nodup_cons.mp hnd).2).1 (hEq ▸ List.mem_cons_self c rest)
    have hmem : ∀ z, z ∈ axisUnique col → z ∈ col ∨ z = 1 :=
      fun z hz => mem_col_or_one_of_mem_axisUnique hz
    have ha := hmem a (by rw [hu]; simp)
    have hb := hmem b (by rw [hu]; simp)
    have hc := hmem c (by rw [hu]; simp)
    by_cases ha1 : a = 1
    · have hb1 : b ≠ 1 := fun hEq => hab (ha1.trans hEq.symm)
      have hc1 : c ≠ 1 := fun hEq => hac (ha1.trans hEq.symm)
      exact ⟨b, hb.resolve_right hb1, c, hc.resolve_right hc1, hbc, hb1, hc1⟩
    · by_cases hb1 : b = 1
      · have hc1 : c ≠ 1 := fun hEq => hbc (hb1.trans hEq.symm)
        exact ⟨a, ha.resolve_right ha1, c, hc.resolve_right hc1, hac, ha1, hc1⟩
      · exact ⟨a, ha.resolve_right ha1, b, hb.resolve_right hb1, hab, ha1, hb1⟩

theorem checkAxes_err : ∀ (cols : List (List Nat)) (k : Nat),
    (∃ c ∈ cols, 2 < (axisUnique c).length) →
    checkAxes cols k = .error (.shapeMismatch
      (k + cols.findIdx (fun c => decide (2 < (axisUnique c).length)))) := by
  intro cols
  induction cols with
  | nil => intro k h; simp at h
  | cons c rest ih =>
    intro k h
    by_cases hbad : 2 < (axisUnique c).length
    · rw [checkAxes, if_pos hbad, List.findIdx_cons]
      simp [hbad]
    · have hrest : ∃ d ∈ rest, 2 < (axisUnique d).length := by
        obtain ⟨d, hd, hdbad⟩ := h
        rcases List.mem_cons.mp hd with rfl | hd2
        · exact absurd hdbad hbad
        · exact ⟨d, hd2, hdbad⟩
      rw [checkAxes, if_neg hbad]
      have hidx : k + (c :: rest).findIdx (fun c => decide (2 < (axisUnique c).length)) =
          (k + 1) + rest.findIdx (fun c => decide (2 < (axisUnique c).length)) := by
        rw [List.findIdx_cons]
        simp only [hbad, decide_False, cond_false]
        omega
      rw [hidx, ih (k + 1) hrest]
      rfl

theorem axisColumn_entry_of_shapes_eq {args : List ArrayView} {s : List Nat} {i : Nat}
    (hall : ∀ a ∈ args, a.shape = s) :
    ∀ z ∈ axisColumn args i,
      z = (List.replicate (ndimMax args - s.length) 1 ++ s).getD i 1 := by
  intro z hz
  simp only [axisColumn, padded_shapes, List.map_map, List.mem_map] at hz
  obtain ⟨a, ha, rfl⟩ := hz
  simp [hall a ha]

theorem dedup_shapes_len_ne_one {args : List ArrayView} {i : Nat} {x y : Nat}
    (hx : x ∈ axisColumn args i) (hy : y ∈ axisColumn args i) (hxy : x ≠ y) :
    ((args.map (fun a => a.shape)).dedup).length ≠ 1 := by
  intro h1
  rcases hu : (args.map (fun a => a.shape)).dedup with _ | ⟨s, rest⟩
  · rw [hu] at h1; simp at h1
  · have hrest : rest = [] := by
      rw [hu] at h1
      simpa using h1
    subst hrest
    have hall : ∀ a ∈ args, a.shape = s := by
      intro a ha
      have : a.shape ∈ (args.map (fun a => a.shape)).dedup :=
        List.mem_dedup.mpr (List.mem_map.mpr ⟨a, ha, rfl⟩)
      rw [hu] at this
      simpa using this
    have hxv := axisColumn_entry_of_shapes_eq hall x hx
    have hyv := axisColumn_entry_of_shapes_eq hall y hy
    exact hxy (hxv.trans hyv.symm)

theorem axisColumns_length (args : List ArrayView) :
    (axisColumns args).length = ndimMax args := by
  rw [axisColumns, List.length_map, List.length_range]

theorem axisColumns_getElem (args : List ArrayView) (j : Nat)
    (hj : j < (axisColumns args).length) :
    (axisColumns args)[j] = axisColumn args j := by
  simp [axisColumns]

/-- C2: when some axis carries two distinct lengths both larger than 1
after right-alignment, broadcast_arrays fails with a ShapeMismatchError
naming the first axis on which two operands disagree on non-1 lengths. -/
theorem broadcast_arrays_shape_mismatch (subok : Bool) (args : List ArrayView)
    (h : ∃ i, i < ndimMax args ∧ ∃ x ∈ axisColumn args i, ∃ y ∈ axisColumn args i,
      x ≠ y ∧ 1 < x ∧ 1 < y) :
    broadcast_arrays [] subok args = .error (.shapeMismatch (firstBadAxis args)) ∧
    firstBadAxis args < ndimMax args ∧
    ∃ x ∈ axisColumn args (firstBadAxis args), ∃ y ∈ axisColumn args (firstBadAxis args),
      x ≠ y ∧ x ≠ 1 ∧ y ≠ 1 := by
  obtain ⟨i, hi, x, hx, y, hy, hxy, hx1, hy1⟩ := h
  have hbadi : 2 < (axisUnique (axisColumn args i)).length :=
    axisUnique_length_gt_two hx hy hxy (by omega) (by omega)
  have hmemcols : axisColumn args i ∈ axisColumns args := by
    rw [axisColumns]
    exact List.mem_map.mpr ⟨i, List.mem_range.mpr hi, rfl⟩
  have hex : ∃ c ∈ axisColumns args, 2 < (axisUnique c).length :=
    ⟨_, hmemcols, hbadi⟩
  have hexb : ∃ c ∈ axisColumns args,
      (fun c => decide (2 < (axisUnique c).length)) c = true := by
    obtain ⟨c, hc, hbc⟩ := hex
    exact ⟨c, hc, by simpa using hbc⟩
  have hne : args ≠ [] := by
    intro h0
    subst h0
    simp [axisColumn, padded_shapes] at hx
  have hneq := dedup_shapes_len_ne_one hx hy hxy
  have hlt : firstBadAxis args < ndimMax args := by
    rw [← axisColumns_length args]
    exact List.findIdx_lt_length_of_exists hexb
  refine ⟨?_, hlt, ?_⟩
  · rw [broadcast_arrays_main_path subok args hne hneq,
      checkAxes_err (axisColumns args) 0 hex, Nat.zero_add]
    rfl
  · have hjlen : firstBadAxis args < (axisColumns args).length :=
      List.findIdx_lt_length_of_exists hexb
    have hpj : decide (2 < (axisUnique ((axisColumns args)[firstBadAxis args])).length) = true :=
      List.findIdx_getElem (w := hjlen)
    rw [axisColumns_getElem args (firstBadAxis args) hjlen] at hpj
    exact exists_two_non_one_of_gt_two (by simpa using hpj)

/-- Witness for C2: shapes (3,4) and (3,5) fail with an error referencing
axis 1. -/
theorem broadcast_arrays_shape_mismatch_witness :
    broadcast_arrays [] false [⟨[3, 4], [32, 8], 0, 0⟩, ⟨[3, 5], [40, 8], 1, 0⟩] =
      .error (.shapeMismatch 1) := by
  have h := (broadcast_arrays_shape_mismatch false
    [⟨[3, 4], [32, 8], 0, 0⟩, ⟨[3, 5], [40, 8], 1, 0⟩] ⟨1, by decide⟩).1
  rw [h]
  rfl

theorem acc_le_foldl_max : ∀ (l : List Nat) (acc : Nat), acc ≤ l.foldl Nat.max acc := by
  intro l
  induction l with
  | nil => intro acc; exact Nat.le_refl acc
  | cons b t ih =>
    intro acc
    calc acc ≤ Nat.max acc b := Nat.le_max_left acc b
    _ ≤ t.foldl Nat.max (Nat.max acc b) := ih (Nat.max acc b)

theorem le_foldl_max_of_mem {x : Nat} : ∀ {l : List Nat}, x ∈ l →
    ∀ acc, x ≤ l.foldl Nat.max acc := by
  intro l
  induction l with
  | nil => intro h; cases h
  | cons b t ih =>
    intro hx acc
    rcases List.mem_cons.mp hx with rfl | hxt
    · calc x ≤ Nat.max acc x := Nat.le_max_right acc x
      _ ≤ t.foldl Nat.max (Nat.max acc x) := acc_le_foldl_max t (Nat.max acc x)
    · exact ih hxt (Nat.max acc b)

theorem shape_length_le_ndimMax {args : List ArrayView} {a : ArrayView} (ha : a ∈ args) :
    a.shape.length ≤ ndimMax args := by
  refine le_foldl_max_of_mem ?_ 0
  rw [List.map_map]
  exact List.mem_map.mpr ⟨a, ha, rfl⟩

theorem paddedShape_length {n : Nat} {a : ArrayView} (hle : a.shape.length ≤ n) :
    (paddedShape n a).length = n := by
  rw [paddedShape, List.length_append, List.length_replicate]
  omega

theorem paddedStrides_length {n : Nat} {a : ArrayView} (hle : a.strides.length ≤ n) :
    (paddedStrides n a).length = n := by
  rw [paddedStrides, List.length_append, List.length_replicate]
  omega

theorem axisColumn_eq_map (args : List ArrayView) (i : Nat) :
    axisColumn args i = args.map (fun a => (paddedShape (ndimMax args) a).getD i 1) := by
  simp [axisColumn, padded_shapes, paddedShape, List.map_map]

theorem axisColumn_length (args : List ArrayView) (i : Nat) :
    (axisColumn args i).length = args.length := by
  rw [axisColumn_eq_map, List.length_map]

theorem paddedShape_getD_mem_axisColumn {args : List ArrayView} {j : Nat}
    (hj : j < args.length) (i : Nat) :
    (paddedShape (ndimMax args) (args.getD j default)).getD i 1 ∈ axisColumn args i := by
  rw [axisColumn_eq_map]
  refine List.mem_map.mpr ⟨args.getD j default, ?_, rfl⟩
  rw [List.getD_eq_getElem args default hj]
  exact List.getElem_mem hj

theorem commonShape_length (args : List ArrayView) :
    (commonShape args).length = ndimMax args := by
  rw [commonShape, List.length_map, axisColumns_length]

theorem commonShape_getD {args : List ArrayView} {i : Nat} (hi : i < ndimMax args) :
    (commonShape args).getD i 1 = axisCommon (axisColumn args i) := by
  have hlen2 : i < (axisColumns args).length := by rw [axisColumns_length]; exact hi
  unfold commonShape
  rw [getD_map_of_lt axisCommon (axisColumns args) i hlen2 1 []]
  congr 1
  rw [List.getD_eq_getElem _ _ hlen2]
  exact axisColumns_getElem args i hlen2

theorem axisCommon_const {col : List Nat} {v : Nat} (hne : col ≠ [])
    (hall : ∀ z ∈ col, z = v) : axisCommon col = v := by
  by_cases hv1 : v = 1
  · subst hv1
    exact axisCommon_all_one hall
  · have hc : AxisCompatible col := by
      intro x hx y hy
      exact Or.inl ((hall x hx).trans (hall y hy).symm)
    obtain ⟨z, hz⟩ := List.exists_mem_of_ne_nil col hne
    have hzv : z = v := hall z hz
    exact (axisUnique_spec_two hc (hzv ▸ hz) hv1).2

theorem exists_common_shape_of_dedup_len_one {args : List ArrayView}
    (h1 : ((args.map (fun a => a.shape)).dedup).length = 1) :
    ∃ s, ∀ a ∈ args, a.shape = s := by
  rcases hu : (args.map (fun a => a.shape)).dedup with _ | ⟨s, rest⟩
  · rw [hu] at h1; simp at h1
  · have hrest : rest = [] := by
      rw [hu] at h1
      simpa using h1
    subst hrest
    refine ⟨s, fun a ha => ?_⟩
    have : a.shape ∈ (args.map (fun a => a.shape)).dedup :=
      List.mem_dedup.mpr (List.mem_map.mpr ⟨a, ha, rfl⟩)
    rw [hu] at this
    simpa using this

theorem ndimMax_of_shapes_eq {args : List ArrayView} {s : List Nat}
    (hne : args ≠ []) (hall : ∀ a ∈ args, a.shape = s) : ndimMax args = s.length := by
  unfold ndimMax
  have hnonempty : ((args.map (fun a => a.shape)).map List.length) ≠ [] := by
    simp [hne]
  have hconst : ∀ x ∈ (args.map (fun a => a.shape)).map List.length, x = s.length := by
    intro x hx
    rw [List.map_map, List.mem_map] at hx
    obtain ⟨a, ha, rfl⟩ := hx
    simp [hall a ha]
  rw [foldl_max_of_forall_eq _ hnonempty hconst 0]
  exact Nat.zero_max _

theorem axisColumn_ne_nil {args : List ArrayView} (hne : args ≠ []) (i : Nat) :
    axisColumn args i ≠ [] := by
  intro hc0
  have hl := axisColumn_length args i
  rw [hc0] at hl
  exact hne (List.length_eq_zero.mp hl.symm)

theorem broadcast_compatible_fast_case (subok : Bool) (args : List ArrayView) (s : List Nat)
    (hne : args ≠ [])
    (hwf : ∀ a ∈ args, a.strides.length = a.shape.length)
    (hall : ∀ a ∈ args, a.shape = s) :
    ∃ out, broadcast_arrays [] subok args = .ok out ∧ BroadcastOutputSpec args out := by
  have hnd : ndimMax args = s.length := ndimMax_of_shapes_eq hne hall
  have hcolconst : ∀ i, ∀ z ∈ axisColumn args i, z = s.getD i 1 := by
    intro i z hz
    rw [axisColumn_eq_map, List.mem_map] at hz
    obtain ⟨a, ha, rfl⟩ := hz
    have hps : paddedShape (ndimMax args) a = s := by
      rw [paddedShape, hall a ha, hnd, Nat.sub_self]
      rfl
    rw [hps]
  have hcs : commonShape args = s := by
    refine List.ext_getElem (by rw [commonShape_length, hnd]) ?_
    intro i h1 h2
    have hi : i < ndimMax args := by rw [commonShape_length] at h1; exact h1
    have hcc : axisCommon (axisColumn args i) = s.getD i 1 :=
      axisCommon_const (axisColumn_ne_nil hne i) (hcolconst i)
    rw [← List.getD_eq_getElem (commonShape args) 1 h1, ← List.getD_eq_getElem s 1 h2,
      commonShape_getD hi, hcc]
  refine ⟨args.map (np_array subok), broadcast_arrays_fast_path subok args s hne hall,
    List.length_map _ _, ?_⟩
  intro j hj
  have hjmem : args.getD j default ∈ args := by
    rw [List.getD_eq_getElem args default hj]
    exact List.getElem_mem hj
  have hshape_j : (args.getD j default).shape = s := hall _ hjmem
  have hstr_j : (args.getD j default).strides.length = s.length := by
    rw [hwf _ hjmem, hshape_j]
  have hgetD : (args.map (np_array subok)).getD j default =
      np_array subok (args.getD j default) :=
    getD_map_of_lt (np_array subok) args j hj default default
  rw [hgetD]
  refine ⟨?_, np_array_base _ _, ?_, ?_⟩
  · rw [np_array_shape, hshape_j, hcs]
  · rw [np_array_strides, hstr_j, hnd]
  · intro i hi
    rw [np_array_strides]
    have hps : paddedShape (ndimMax args) (args.getD j default) = s := by
      rw [paddedShape, hshape_j, hnd, Nat.sub_self]
      rfl
    have hpst : paddedStrides (ndimMax args) (args.getD j default) =
        (args.getD j default).strides := by
      rw [paddedStrides, show ndimMax args - (args.getD j default).strides.length = 0 by omega]
      rfl
    rw [hps, hpst, hcs, if_neg (fun h => h.2 h.1)]

theorem getD_zipWith_of_lt {α β γ : Type} (f : α → β → γ) :
    ∀ (l1 : List α) (l2 : List β) (j : Nat), j < l1.length → j < l2.length →
      ∀ (d : γ) (d1 : α) (d2 : β),
        (List.zipWith f l1 l2).getD j d = f (l1.getD j d1) (l2.getD j d2) := by
  intro l1
  induction l1 with
  | nil => intro l2 j h1; simp at h1
  | cons a t ih =>
    intro l2 j h1 h2 d d1 d2
    cases l2 with
    | nil => simp at h2
    | cons b u =>
      cases j with
      | zero => rfl
      | succ m =>
        rw [List.zipWith_cons_cons, List.getD_cons_succ, List.getD_cons_succ,
          List.getD_cons_succ]
        exact ih u m (by simpa using h1) (by simpa using h2) d d1 d2

theorem getD_zip_of_lt {α β : Type} (l1 : List α) (l2 : List β) (j : Nat)
    (h1 : j < l1.length) (h2 : j < l2.length) (d1 : α) (d2 : β) :
    (l1.zip l2).getD j (d1, d2) = (l1.getD j d1, l2.getD j d2) := by
  have hz : l1.zip l2 = List.zipWith Prod.mk l1 l2 := rfl
  rw [hz, getD_zipWith_of_lt Prod.mk l1 l2 j h1 h2 (d1, d2) d1 d2]

theorem broadcast_compatible_main_case (subok : Bool) (args : List ArrayView)
    (hne : args ≠ [])
    (hwf : ∀ a ∈ args, a.strides.length = a.shape.length)
    (hcomp : ∀ i, i < ndimMax args → AxisCompatible (axisColumn args i))
    (hneq : ((args.map (fun a => a.shape)).dedup).length ≠ 1) :
    ∃ out, broadcast_arrays [] subok args = .ok out ∧ BroadcastOutputSpec args out := by
  have hcols : ∀ c ∈ axisColumns args, AxisCompatible c := by
    intro c hc
    rw [axisColumns, List.mem_map] at hc
    obtain ⟨i, hir, rfl⟩ := hc
    exact hcomp i (List.mem_range.mp hir)
  have hchk := checkAxes_ok (axisColumns args) 0 hcols
  have hlenS : (padded_shapes (ndimMax args) (args.map (fun a => a.shape))).length =
      args.length := by
    simp [padded_shapes]
  have hlenT : (padded_strides (ndimMax args) (args.map (fun a => a.strides))).length =
      args.length := by
    simp [padded_strides]
  refine ⟨List.zipWith
      (fun a p => as_strided a (some (List.zipWith bcastLen (axisColumns args) p.1))
        (some (List.zipWith bcastStride (axisColumns args) (p.1.zip p.2))) subok)
      (args.map (np_array subok))
      ((padded_shapes (ndimMax args) (args.map (fun a => a.shape))).zip
        (padded_strides (ndimMax args) (args.map (fun a => a.strides)))), ?_, ?_, ?_⟩
  · rw [broadcast_arrays_main_path subok args hne hneq, hchk]
  · rw [List.length_zipWith, List.length_map, List.length_zip, hlenS, hlenT,
      Nat.min_self, Nat.min_self]
  · intro j hj
    have hjmem : args.getD j default ∈ args := by
      rw [List.getD_eq_getElem args default hj]
      exact List.getElem_mem hj
    have hshlen : (args.getD j default).shape.length ≤ ndimMax args :=
      shape_length_le_ndimMax hjmem
    have hstlen : (args.getD j default).strides.length ≤ ndimMax args := by
      rw [hwf _ hjmem]
      exact hshlen
    have hpsl : (paddedShape (ndimMax args) (args.getD j default)).length = ndimMax args :=
      paddedShape_length hshlen
    have hptl : (paddedStrides (ndimMax args) (args.getD j default)).length = ndimMax args :=
      paddedStrides_length hstlen
    have hSj : (padded_shapes (ndimMax args) (args.map (fun a => a.shape))).getD j [] =
        paddedShape (ndimMax args) (args.getD j default) := by
      unfold padded_shapes
      rw [getD_map_of_lt _ _ j (by rw [List.length_map]; exact hj) [] []]
      rw [getD_map_of_lt _ _ j hj [] default]
      rfl
    have hTj : (padded_strides (ndimMax args) (args.map (fun a => a.strides))).getD j [] =
        paddedStrides (ndimMax args) (args.getD j default) := by
      unfold padded_strides
      rw [getD_map_of_lt _ _ j (by rw [List.length_map]; exact hj) [] []]
      rw [getD_map_of_lt _ _ j hj [] default]
      rfl
    have hMj : (args.map (np_array subok)).getD j default =
        np_array subok (args.getD j default) :=
      getD_map_of_lt _ _ j hj default default
    have hzipj : ((padded_shapes (ndimMax args) (args.map (fun a => a.shape))).zip
        (padded_strides (ndimMax args) (args.map (fun a => a.strides)))).getD j ([], []) =
        (paddedShape (ndimMax args) (args.getD j default),
          paddedStrides (ndimMax args) (args.getD j default)) := by
      rw [getD_zip_of_lt _ _ j (by rw [hlenS]; exact hj) (by rw [hlenT]; exact hj) [] []]
      rw [hSj, hTj]
    have hout : (List.zipWith
        (fun a p => as_strided a (some (List.zipWith bcastLen (axisColumns args) p.1))
          (some (List.zipWith bcastStride (axisColumns args) (p.1.zip p.2))) subok)
        (args.map (np_array subok))
        ((padded_shapes (ndimMax args) (args.map (fun a => a.shape))).zip
          (padded_strides (ndimMax args) (args.map (fun a => a.strides))))).getD j default =
        as_strided (np_array subok (args.getD j default))
          (some (List.zipWith bcastLen (axisColumns args)
            (paddedShape (ndimMax args) (args.getD j default))))
          (some (List.zipWith bcastStride (axisColumns args)
            ((paddedShape (ndimMax args) (args.getD j default)).zip
              (paddedStrides (ndimMax args) (args.getD j default)))))
          subok := by
      rw [getD_zipWith_of_lt _ _ _ j (by rw [List.length_map]; exact hj)
        (by rw [List.length_zip, hlenS, hlenT, Nat.min_self]; exact hj)
        default default ([], [])]
      rw [hMj, hzipj]
    rw [hout]
    have hcoli : ∀ i, i < ndimMax args → (axisColumns args).getD i [] = axisColumn args i := by
      intro i hi
      have hb : i < (axisColumns args).length := by rw [axisColumns_length]; exact hi
      rw [List.getD_eq_getElem _ _ hb]
      exact axisColumns_getElem args i hb
    refine ⟨?_, ?_, ?_, ?_⟩
    · show List.zipWith bcastLen (axisColumns args)
        (paddedShape (ndimMax args) (args.getD j default)) = commonShape args
      refine List.ext_getElem ?_ ?_
      · rw [List.length_zipWith, axisColumns_length, hpsl, commonShape_length, Nat.min_self]
      · intro i hiz hic
        have hi : i < ndimMax args := by rw [commonShape_length] at hic; exact hic
        rw [← List.getD_eq_getElem _ 1 hiz, ← List.getD_eq_getElem _ 1 hic]
        rw [getD_zipWith_of_lt bcastLen _ _ i (by rw [axisColumns_length]; exact hi)
          (by rw [hpsl]; exact hi) 1 [] 1]
        rw [hcoli i hi]
        rw [bcastLen_eq_axisCommon (hcomp i hi) (paddedShape_getD_mem_axisColumn hj i)]
        rw [commonShape_getD hi]
    · show ((np_array subok (np_array subok (args.getD j default)))).base =
        (args.getD j default).base
      rw [np_array_base, np_array_base]
    · show (List.zipWith bcastStride (axisColumns args)
        ((paddedShape (ndimMax args) (args.getD j default)).zip
          (paddedStrides (ndimMax args) (args.getD j default)))).length = ndimMax args
      rw [List.length_zipWith, axisColumns_length, List.length_zip, hpsl, hptl,
        Nat.min_self, Nat.min_self]
    · intro i hi
      show (List.zipWith bcastStride (axisColumns args)
        ((paddedShape (ndimMax args) (args.getD j default)).zip
          (paddedStrides (ndimMax args) (args.getD j default)))).getD i 0 = _
      rw [getD_zipWith_of_lt bcastStride _ _ i (by rw [axisColumns_length]; exact hi)
        (by rw [List.length_zip, hpsl, hptl, Nat.min_self]; exact hi) 0 [] ((1 : Nat), (0 : Int))]
      rw [hcoli i hi]
      rw [getD_zip_of_lt _ _ i (by rw [hpsl]; exact hi) (by rw [hptl]; exact hi) 1 0]
      rw [bcastStride_spec (hcomp i hi)]
      rw [commonShape_getD hi]

/-- C1 (amended): for every nonempty list of well-formed operands whose
right-aligned axes are each broadcast-compatible, broadcast_arrays
succeeds with one view per operand; every view carries the common shape
(per axis the unique non-1 contributed length, or 1 when every operand
contributes 1) and the operand's base buffer; on every axis where an
operand was broadcast from length 1 against a non-1 common length its
stride is 0, and on every other axis its padded stride is unchanged. -/
theorem broadcast_arrays_compatible (subok : Bool) (args : List ArrayView)
    (hne : args ≠ [])
    (hwf : ∀ a ∈ args, a.strides.length = a.shape.length)
    (hcomp : ∀ i, i < ndimMax args → AxisCompatible (axisColumn args i)) :
    ∃ out, broadcast_arrays [] subok args = .ok out ∧ BroadcastOutputSpec args out := by
  by_cases hfast : ((args.map (fun a => a.shape)).dedup).length = 1
  · obtain ⟨s, hall⟩ := exists_common_shape_of_dedup_len_one hfast
    exact broadcast_compatible_fast_case subok args s hne hwf hall
  · exact broadcast_compatible_main_case subok args hne hwf hcomp hfast

/-- Witness for C1: the docstring example, a (1,3) row against a (3,1)
column, broadcasts to the (3,3) views with the broadcast axes at stride
0. -/
theorem broadcast_arrays_compatible_witness :
    ∃ out, broadcast_arrays [] false [⟨[1, 3], [24, 8], 0, 0⟩, ⟨[3, 1], [8, 8], 1, 0⟩] =
        .ok out ∧
      BroadcastOutputSpec [⟨[1, 3], [24, 8], 0, 0⟩, ⟨[3, 1], [8, 8], 1, 0⟩] out :=
  broadcast_arrays_compatible false [⟨[1, 3], [24, 8], 0, 0⟩, ⟨[3, 1], [8, 8], 1, 0⟩]
    (by decide) (by decide) (by decide)

/-- Counterexample for C1 as stated: (a) the empty operand list is
vacuously compatible yet broadcast_arrays raises the ValueError of max()
instead of succeeding; (b) a single operand of shape (1) with stride 8 is
compatible, but the fast path keeps its stride 8, while the claim demands
stride 0 on every axis whose original length was 1; (c) shapes (0) and
(1) are compatible and produce common shape (0), while the claim's
common-shape rule (the unique length greater than 1, else 1) predicts
(1). -/
theorem broadcast_arrays_C1_counterexample :
    (broadcast_arrays [] false ([] : List ArrayView) = .error .emptyOperands) ∧
    ((∀ i, i < ndimMax [⟨[1], [8], 0, 0⟩] → AxisCompatible (axisColumn [⟨[1], [8], 0, 0⟩] i)) ∧
      ¬ C1LiteralConclusion [⟨[1], [8], 0, 0⟩]) ∧
    ((∀ i, i < ndimMax [⟨[0], [0], 0, 0⟩, ⟨[1], [8], 1, 0⟩] →
        AxisCompatible (axisColumn [⟨[0], [0], 0, 0⟩, ⟨[1], [8], 1, 0⟩] i)) ∧
      ¬ C1LiteralConclusion [⟨[0], [0], 0, 0⟩, ⟨[1], [8], 1, 0⟩]) := by
  refine ⟨by rfl, ⟨by decide, ?_⟩, ⟨by decide, ?_⟩⟩
  · intro hcl
    obtain ⟨out, hout, hlen, hj⟩ := hcl
    have hrun : broadcast_arrays [] false [⟨[1], [8], 0, 0⟩] = .ok [⟨[1], [8], 0, 0⟩] := by
      rfl
    rw [hrun] at hout
    have hOut : ([⟨[1], [8], 0, 0⟩] : List ArrayView) = out := Except.ok.inj hout
    subst hOut
    have h0 := (hj 0 (by decide)).2 0 (by decide) (by decide)
    exact absurd h0 (by decide)
  · intro hcl
    obtain ⟨out, hout, hlen, hj⟩ := hcl
    have hrun : broadcast_arrays [] false [⟨[0], [0], 0, 0⟩, ⟨[1], [8], 1, 0⟩] =
        .ok [⟨[0], [0], 0, 0⟩, ⟨[0], [0], 1, 0⟩] := by
      rfl
    rw [hrun] at hout
    have hOut : ([⟨[0], [0], 0, 0⟩, ⟨[0], [0], 1, 0⟩] : List ArrayView) = out :=
      Except.ok.inj hout
    subst hOut
    exact absurd (hj 0 (by decide)).1 (by decide)

/-! Invariants of the override-resolver scan. -/

theorem insertIdx_eq_take_cons_drop {α : Type} (x : α) :
    ∀ (n : Nat) (l : List α), n ≤ l.length →
      l.insertIdx n x = l.take n ++ x :: l.drop n := by
  intro n
  induction n with
  | zero => intro l _; rfl
  | succ m ih =>
    intro l hl
    cases l with
    | nil => simp at hl
    | cons a t =>
      rw [List.insertIdx_succ_cons, ih t (by simpa using hl)]
      rfl

theorem findIdx_take_pred_false {α : Type} (pr : α → Bool) :
    ∀ (l : List α), ∀ x ∈ l.take (l.findIdx pr), pr x = false := by
  intro l
  induction l with
  | nil => intro x hx; simp at hx
  | cons b t ih =>
    intro x hx
    rw [List.findIdx_cons] at hx
    by_cases hb : pr b
    · rw [hb] at hx
      simp at hx
    · rw [Bool.not_eq_true] at hb
      rw [hb] at hx
      simp only [cond_false, List.take_succ_cons, List.mem_cons] at hx
      rcases hx with rfl | hx
      · exact hb
      · exact ih x hx

/-- The running state invariant of the scan: the type list and the placed
candidates track exactly the same set of types, the type list has no
duplicates, and both have the same size. -/
def ScanInv (st : List Nat × List Arg) : Prop :=
  (∀ t, t ∈ st.1 ↔ ∃ c ∈ st.2, c.ty = t) ∧ st.1.Nodup ∧ st.2.length = st.1.length

theorem step_scanInv (sub : Nat → Nat → Bool) (hasOv : Nat → Bool)
    (st : List Nat × List Arg) (arg : Arg) (hinv : ScanInv st) :
    ScanInv (implementingStep sub hasOv st arg) := by
  obtain ⟨hmem, hnd, hlen⟩ := hinv
  unfold implementingStep
  by_cases hcond : hasOv arg.ty && !(st.1.contains arg.ty)
  · rw [if_pos hcond]
    rw [Bool.and_eq_true, Bool.not_eq_true'] at hcond
    have hno : arg.ty ∉ st.1 := by
      simpa [List.contains] using hcond.2
    have hplen : st.2.findIdx (fun old => sub arg.ty old.ty) ≤ st.2.length :=
      List.findIdx_le_length _
    refine ⟨?_, ?_, ?_⟩
    · intro t
      rw [List.mem_append, List.mem_singleton]
      constructor
      · rintro (ht | rfl)
        · obtain ⟨c, hc, rfl⟩ := (hmem t).mp ht
          exact ⟨c, (List.mem_insertIdx hplen).mpr (Or.inr hc), rfl⟩
        · exact ⟨arg, (List.mem_insertIdx hplen).mpr (Or.inl rfl), rfl⟩
      · rintro ⟨c, hc, rfl⟩
        rcases (List.mem_insertIdx hplen).mp hc with rfl | hc2
        · exact Or.inr rfl
        · exact Or.inl ((hmem c.ty).mpr ⟨c, hc2, rfl⟩)
    · rw [List.nodup_append]
      refine ⟨hnd, List.nodup_singleton _, ?_⟩
      intro t ht htt
      rw [List.mem_singleton] at htt
      exact hno (htt ▸ ht)
    · show (insertCandidate sub st.2 arg).length = (st.1 ++ [arg.ty]).length
      unfold insertCandidate
      rw [List.length_insertIdx _ _ hplen, List.length_append, hlen]
      rfl
  · rw [if_neg hcond]
    exact ⟨hmem, hnd, hlen⟩

theorem foldl_scanInv (sub : Nat → Nat → Bool) (hasOv : Nat → Bool) :
    ∀ (args : List Arg) (st : List Nat × List Arg), ScanInv st →
      ScanInv (args.foldl (implementingStep sub hasOv) st) := by
  intro args
  induction args with
  | nil => intro st h; exact h
  | cons a rest ih =>
    intro st h
    exact ih _ (step_scanInv sub hasOv st a h)

theorem step_pairwise (sub : Nat → Nat → Bool) (hasOv : Nat → Bool)
    (hTrans : ∀ a b c, sub a b = true → sub b c = true → sub a c = true)
    (hAnti : ∀ a b, sub a b = true → sub b a = true → a = b)
    (st : List Nat × List Arg) (arg : Arg) (hinv : ScanInv st)
    (hpw : List.Pairwise (fun x y : Arg => sub y.ty x.ty = false) st.2) :
    List.Pairwise (fun x y : Arg => sub y.ty x.ty = false)
      (implementingStep sub hasOv st arg).2 := by
  unfold implementingStep
  by_cases hcond : hasOv arg.ty && !(st.1.contains arg.ty)
  case neg => rw [if_neg hcond]; exact hpw
  case pos =>
    rw [if_pos hcond]
    rw [Bool.and_eq_true, Bool.not_eq_true'] at hcond
    have hno : arg.ty ∉ st.1 := by
      simpa [List.contains] using hcond.2
    obtain ⟨hmem, _, _⟩ := hinv
    show List.Pairwise _ (insertCandidate sub st.2 arg)
    unfold insertCandidate
    have hple : st.2.findIdx (fun old => sub arg.ty old.ty) ≤ st.2.length :=
      List.findIdx_le_length _
    rw [insertIdx_eq_take_cons_drop arg _ st.2 hple]
    have hsplit := hpw
    rw [← List.take_append_drop (st.2.findIdx (fun old => sub arg.ty old.ty)) st.2,
      List.pairwise_append] at hsplit
    obtain ⟨hpwT, hpwD, hcross⟩ := hsplit
    rw [List.pairwise_append]
    refine ⟨hpwT, ?_, ?_⟩
    · rw [List.pairwise_cons]
      refine ⟨?_, hpwD⟩
      intro y hy
      by_contra hsubc
      rw [Bool.not_eq_false] at hsubc
      have hplt : st.2.findIdx (fun old => sub arg.ty old.ty) < st.2.length := by
        rcases Nat.lt_or_ge (st.2.findIdx (fun old => sub arg.ty old.ty)) st.2.length with h | h
        · exact h
        · rw [List.drop_eq_nil_of_le h] at hy
          cases hy
      have hu : st.2.drop (st.2.findIdx (fun old => sub arg.ty old.ty)) =
          st.2[st.2.findIdx (fun old => sub arg.ty old.ty)] ::
            st.2.drop (st.2.findIdx (fun old => sub arg.ty old.ty) + 1) :=
        List.drop_eq_getElem_cons hplt
      have hpredu : sub arg.ty (st.2[st.2.findIdx (fun old => sub arg.ty old.ty)]).ty = true :=
        List.findIdx_getElem (w := hplt)
      rw [hu] at hy
      rcases List.mem_cons.mp hy with rfl | hy2
      · have heq := hAnti _ _ hsubc hpredu
        refine hno ((hmem arg.ty).mpr ⟨_, ?_, heq⟩)
        exact List.getElem_mem hplt
      · have hpwD2 := hpwD
        rw [hu, List.pairwise_cons] at hpwD2
        have hfalse := hpwD2.1 y hy2
        have htrue := hTrans _ _ _ hsubc hpredu
        rw [htrue] at hfalse
        cases hfalse
    · intro x hx y hy
      rcases List.mem_cons.mp hy with rfl | hy2
      · exact findIdx_take_pred_false _ st.2 x hx
      · exact hcross x hx y hy2

theorem foldl_pairwise (sub : Nat → Nat → Bool) (hasOv : Nat → Bool)
    (hTrans : ∀ a b c, sub a b = true → sub b c = true → sub a c = true)
    (hAnti : ∀ a b, sub a b = true → sub b a = true → a = b) :
    ∀ (args : List Arg) (st : List Nat × List Arg), ScanInv st →
      List.Pairwise (fun x y : Arg => sub y.ty x.ty = false) st.2 →
      List.Pairwise (fun x y : Arg => sub y.ty x.ty = false)
        (args.foldl (implementingStep sub hasOv) st).2 := by
  intro args
  induction args with
  | nil => intro st _ hpw; exact hpw
  | cons a rest ih =>
    intro st hinv hpw
    exact ih _ (step_scanInv sub hasOv st a hinv)
      (step_pairwise sub hasOv hTrans hAnti st a hinv hpw)

theorem step_types_mem (sub : Nat → Nat → Bool) (hasOv : Nat → Bool)
    (st : List Nat × List Arg) (a : Arg) (t : Nat) :
    t ∈ (implementingStep sub hasOv st a).1 ↔
      t ∈ st.1 ∨ (hasOv t = true ∧ a.ty = t) := by
  unfold implementingStep
  by_cases hcond : hasOv a.ty && !(st.1.contains a.ty)
  · rw [if_pos hcond]
    rw [Bool.and_eq_true, Bool.not_eq_true'] at hcond
    show t ∈ st.1 ++ [a.ty] ↔ _
    rw [List.mem_append, List.mem_singleton]
    constructor
    · rintro (ht | rfl)
      · exact Or.inl ht
      · exact Or.inr ⟨hcond.1, rfl⟩
    · rintro (ht | ⟨_, rfl⟩)
      · exact Or.inl ht
      · exact Or.inr rfl
  · rw [if_neg hcond]
    constructor
    · exact Or.inl
    · rintro (ht | ⟨hov, rfl⟩)
      · exact ht
      · by_contra hnot
        exact hcond (by simp [hov, List.contains, hnot])
  
theorem foldl_types_mem (sub : Nat → Nat → Bool) (hasOv : Nat → Bool) :
    ∀ (args : List Arg) (st : List Nat × List Arg) (t : Nat),
      t ∈ (args.foldl (implementingStep sub hasOv) st).1 ↔
        t ∈ st.1 ∨ (hasOv t = true ∧ ∃ a ∈ args, a.ty = t) := by
  intro args
  induction args with
  | nil => intro st t; simp
  | cons a rest ih =>
    intro st t
    rw [List.foldl_cons, ih, step_types_mem]
    constructor
    · rintro ((ht | ⟨hov, rfl⟩) | ⟨hov, x, hx, rfl⟩)
      · exact Or.inl ht
      · exact Or.inr ⟨hov, a, List.mem_cons_self a rest, rfl⟩
      · exact Or.inr ⟨hov, x, List.mem_cons_of_mem a hx, rfl⟩
    · rintro (ht | ⟨hov, x, hx, rfl⟩)
      · exact Or.inl (Or.inl ht)
      · rcases List.mem_cons.mp hx with rfl | hx2
        · exact Or.inl (Or.inr ⟨hov, rfl⟩)
        · exact Or.inr ⟨hov, x, hx2, rfl⟩

theorem step_types_sub (sub : Nat → Nat → Bool) (hasOv : Nat → Bool)
    (st : List Nat × List Arg) (a : Arg) {t : Nat} (ht : t ∈ st.1) :
    t ∈ (implementingStep sub hasOv st a).1 :=
  (step_types_mem sub hasOv st a t).mpr (Or.inl ht)

theorem foldl_placed_first (sub : Nat → Nat → Bool) (hasOv : Nat → Bool) :
    ∀ (args : List Arg) (st : List Nat × List Arg) (c : Arg),
      c ∈ (args.foldl (implementingStep sub hasOv) st).2 →
      c ∈ st.2 ∨ (hasOv c.ty = true ∧ c.ty ∉ st.1 ∧
        args.find? (fun a => a.ty == c.ty) = some c) := by
  intro args
  induction args with
  | nil => intro st c hc; exact Or.inl hc
  | cons a rest ih =>
    intro st c hc
    rw [List.foldl_cons] at hc
    rcases ih _ c hc with hstep | ⟨hov, hnotin, hfind⟩
    · unfold implementingStep at hstep
      by_cases hcond : hasOv a.ty && !(st.1.contains a.ty)
      · rw [if_pos hcond] at hstep
        rw [Bool.and_eq_true, Bool.not_eq_true'] at hcond
        have hno : a.ty ∉ st.1 := by
          simpa [List.contains] using hcond.2
        have hple : st.2.findIdx (fun old => sub a.ty old.ty) ≤ st.2.length :=
          List.findIdx_le_length _
        replace hstep : c ∈ insertCandidate sub st.2 a := hstep
        unfold insertCandidate at hstep
        rcases (List.mem_insertIdx hple).mp hstep with rfl | hmem2
        · refine Or.inr ⟨hcond.1, hno, ?_⟩
          rw [List.find?_cons_of_pos _ (by simp)]
        · exact Or.inl hmem2
      · rw [if_neg hcond] at hstep
        exact Or.inl hstep
    · have htyne : a.ty ≠ c.ty := by
        intro hEq
        refine hnotin (?_ : c.ty ∈ (implementingStep sub hasOv st a).1)
        unfold implementingStep
        by_cases hcond : hasOv a.ty && !(st.1.contains a.ty)
        · rw [if_pos hcond]
          show c.ty ∈ st.1 ++ [a.ty]
          rw [List.mem_append, List.mem_singleton]
          exact Or.inr hEq.symm
        · rw [if_neg hcond]
          rw [Bool.and_eq_true, Bool.not_eq_true'] at hcond
          push_neg at hcond
          by_cases hov2 : hasOv a.ty = true
          · have hcont := hcond hov2
            have : a.ty ∈ st.1 := by
              have hx : st.1.contains a.ty ≠ false := hcont
              rcases hb : st.1.contains a.ty with _ | _
              · exact absurd hb hx
              · simpa [List.contains] using hb
            exact hEq ▸ this
          · rw [hEq] at hov2
            exact absurd hov hov2
      have hnotin2 : c.ty ∉ st.1 := fun h =>
        hnotin (step_types_sub sub hasOv st a h)
      refine Or.inr ⟨hov, hnotin2, ?_⟩
      rw [List.find?_cons_of_neg _ (by simp [htyne]), hfind]

theorem nodup_of_mem_iff {L T : List Nat} (hlen : L.length = T.length)
    (hT : T.Nodup) (hiff : ∀ x, x ∈ L ↔ x ∈ T) : L.Nodup := by
  have h1 : L.toFinset = T.toFinset := by
    ext x
    simp only [List.mem_toFinset]
    exact hiff x
  have h2 : L.dedup.length = L.length := by
    rw [← List.card_toFinset, h1, List.card_toFinset, hT.dedup, hlen]
  exact List.dedup_eq_self.mp ((List.dedup_sublist L).eq_of_length h2)

/-- The scan's placed candidates, read off a successful resolution. -/
theorem get_implementing_args_ok {sub : Nat → Nat → Bool} {hasOv : Nat → Bool}
    {args : List Arg} {out : List Arg}
    (hout : get_implementing_args sub hasOv args = .ok out) :
    (scanArgs sub hasOv args).2 = out ∧ ¬(32 < (scanArgs sub hasOv args).1.length) := by
  unfold get_implementing_args at hout
  by_cases hcap : 32 < (scanArgs sub hasOv args).1.length
  · rw [if_pos hcap] at hout
    cases hout
  · rw [if_neg hcap] at hout
    exact ⟨Except.ok.inj hout, hcap⟩

theorem scanArgs_inv (sub : Nat → Nat → Bool) (hasOv : Nat → Bool) (args : List Arg) :
    ScanInv (scanArgs sub hasOv args) :=
  foldl_scanInv sub hasOv args ([], [])
    ⟨fun t => by simp, List.nodup_nil, rfl⟩

/-- C3 (amended): a successful resolution keeps exactly the
first-encountered instance of each override-capable type (no two
candidates share a type), and orders them so that no candidate is a
subclass of an earlier candidate - in particular a strict subclass always
precedes its ancestors.  The ordering is the deterministic result of the
insertion scan; it may move a subclass in front of unrelated candidates
that were first seen earlier, so first-seen order among unrelated types is
only kept when no insertion jumps over them. -/
theorem resolveCandidates_ordering (sub : Nat → Nat → Bool) (hasOv : Nat → Bool)
    (args : List Arg) (out : List Arg)
    (hTrans : ∀ a b c, sub a b = true → sub b c = true → sub a c = true)
    (hAnti : ∀ a b, sub a b = true → sub b a = true → a = b)
    (hout : get_implementing_args sub hasOv args = .ok out) :
    (out.map (fun c => c.ty)).Nodup ∧
    (∀ c ∈ out, hasOv c.ty = true ∧ args.find? (fun a => a.ty == c.ty) = some c) ∧
    (∀ i j, ∀ hi : i < out.length, ∀ hj : j < out.length, i < j →
      sub (out.get ⟨j, hj⟩).ty (out.get ⟨i, hi⟩).ty = false) := by
  obtain ⟨hscan, _⟩ := get_implementing_args_ok hout
  obtain ⟨hmem, hnd, hlen⟩ := scanArgs_inv sub hasOv args
  refine ⟨?_, ?_, ?_⟩
  · refine nodup_of_mem_iff (L := out.map (fun c => c.ty)) ?_ hnd ?_
    · rw [List.length_map, ← hscan, hlen]
    · intro x
      rw [List.mem_map, hmem x]
      constructor
      · rintro ⟨c, hc, rfl⟩
        exact ⟨c, hscan ▸ hc, rfl⟩
      · rintro ⟨c, hc, rfl⟩
        exact ⟨c, hscan ▸ hc, rfl⟩
  · intro c hc
    have hfirst := foldl_placed_first sub hasOv args ([], []) c (by rw [← hscan] at hc; exact hc)
    rcases hfirst with h0 | ⟨hov, _, hfind⟩
    · cases h0
    · exact ⟨hov, hfind⟩
  · have hpw : List.Pairwise (fun x y : Arg => sub y.ty x.ty = false) out := by
      rw [← hscan]
      exact foldl_pairwise sub hasOv hTrans hAnti args ([], [])
        ⟨fun t => by simp, List.nodup_nil, rfl⟩ List.Pairwise.nil
    intro i j hi hj hij
    rw [List.pairwise_iff_getElem] at hpw
    have := hpw i j hi hj hij
    rw [List.get_eq_getElem, List.get_eq_getElem]
    exact this

theorem subDemo_trans : ∀ a b c, subDemo a b = true → subDemo b c = true →
    subDemo a c = true := by
  intro a b c h1 h2
  simp only [subDemo, Bool.or_eq_true, Bool.and_eq_true, beq_iff_eq] at h1 h2 ⊢
  rcases h1 with rfl | ⟨ha, rfl⟩
  · exact h2
  · rcases h2 with rfl | ⟨hb, rfl⟩
    · exact Or.inr ⟨ha, rfl⟩
    · rcases hb with h | h <;> exact absurd h (by decide)

theorem subDemo_antisym : ∀ a b, subDemo a b = true → subDemo b a = true → a = b := by
  intro a b h1 h2
  simp only [subDemo, Bool.or_eq_true, Bool.and_eq_true, beq_iff_eq] at h1 h2
  rcases h1 with rfl | ⟨ha, rfl⟩
  · rfl
  · rcases h2 with rfl | ⟨hb, rfl⟩
    · rfl
    · rcases hb with h | h <;> exact absurd h (by decide)

/-- Witness for C3: with B (type 1) a strict subclass of A (type 0), both
argument orders resolve to [B-instance, A-instance], and the resulting
candidate types are duplicate-free. -/
theorem resolveCandidates_ordering_witness :
    get_implementing_args subDemo (fun _ => true) [⟨0, 10⟩, ⟨1, 11⟩] =
      .ok [⟨1, 11⟩, ⟨0, 10⟩] ∧
    get_implementing_args subDemo (fun _ => true) [⟨1, 11⟩, ⟨0, 10⟩] =
      .ok [⟨1, 11⟩, ⟨0, 10⟩] ∧
    (([⟨1, 11⟩, ⟨0, 10⟩] : List Arg).map (fun c => c.ty)).Nodup := by
  refine ⟨by rfl, by rfl, ?_⟩
  exact (resolveCandidates_ordering subDemo (fun _ => true) [⟨0, 10⟩, ⟨1, 11⟩]
    [⟨1, 11⟩, ⟨0, 10⟩] subDemo_trans subDemo_antisym (by rfl)).1

/-- Counterexample for C3 as stated: with C (type 2) a strict subclass of
A (type 0) and D (type 3) unrelated to both, the input order A, D, C
resolves to [C, A, D] - C is inserted in front of its ancestor A and
thereby jumps the unrelated D that was seen first, so unrelated types do
not keep first-seen order. -/
theorem resolveCandidates_first_seen_counterexample :
    get_implementing_args subDemo (fun _ => true) [⟨0, 10⟩, ⟨3, 13⟩, ⟨2, 12⟩] =
      .ok [⟨2, 12⟩, ⟨0, 10⟩, ⟨3, 13⟩] ∧
    subDemo 2 3 = false ∧ subDemo 3 2 = false ∧
    List.findIdx (fun a : Arg => a.ty == 3) [⟨0, 10⟩, ⟨3, 13⟩, ⟨2, 12⟩] <
      List.findIdx (fun a : Arg => a.ty == 2) [⟨0, 10⟩, ⟨3, 13⟩, ⟨2, 12⟩] ∧
    List.findIdx (fun c : Arg => c.ty == 2) [⟨2, 12⟩, ⟨0, 10⟩, ⟨3, 13⟩] <
      List.findIdx (fun c : Arg => c.ty == 3) [⟨2, 12⟩, ⟨0, 10⟩, ⟨3, 13⟩] :=
  ⟨by rfl, by decide, by decide, by decide, by decide⟩

/-- C4: with every argument override-capable, resolution succeeds whenever
at most 32 distinct types are presented, keeping one candidate per
distinct type, and fails with TooManyCandidateTypesError as soon as the
distinct-type count exceeds 32. -/
theorem resolveCandidates_type_cap (sub : Nat → Nat → Bool) (hasOv : Nat → Bool)
    (args : List Arg) (hall : ∀ a ∈ args, hasOv a.ty = true) :
    (((args.map (fun a => a.ty)).dedup).length ≤ 32 →
      ∃ out, get_implementing_args sub hasOv args = .ok out ∧
        out.length = ((args.map (fun a => a.ty)).dedup).length ∧
        ∀ a ∈ args, ∃ c ∈ out, c.ty = a.ty) ∧
    (32 < ((args.map (fun a => a.ty)).dedup).length →
      get_implementing_args sub hasOv args = .error .tooManyTypes) := by
  obtain ⟨hmem, hnd, hlen⟩ := scanArgs_inv sub hasOv args
  have htypes_mem : ∀ t, t ∈ (scanArgs sub hasOv args).1 ↔
      t ∈ args.map (fun a => a.ty) := by
    intro t
    unfold scanArgs
    rw [foldl_types_mem]
    simp only [List.not_mem_nil, false_or, List.mem_map]
    constructor
    · rintro ⟨_, a, ha, rfl⟩
      exact ⟨a, ha, rfl⟩
    · rintro ⟨a, ha, rfl⟩
      exact ⟨hall a ha, a, ha, rfl⟩
  have hcount : (scanArgs sub hasOv args).1.length =
      ((args.map (fun a => a.ty)).dedup).length := by
    rw [← List.toFinset_card_of_nodup hnd, ← List.card_toFinset]
    congr 1
    ext x
    simp only [List.mem_toFinset]
    exact htypes_mem x
  constructor
  · intro hle
    refine ⟨(scanArgs sub hasOv args).2, ?_, ?_, ?_⟩
    · unfold get_implementing_args
      rw [if_neg (by rw [hcount]; omega)]
    · rw [hlen, hcount]
    · intro a ha
      have hty : a.ty ∈ (scanArgs sub hasOv args).1 :=
        (htypes_mem a.ty).mpr (List.mem_map.mpr ⟨a, ha, rfl⟩)
      exact (hmem a.ty).mp hty
  · intro hgt
    unfold get_implementing_args
    rw [if_pos (by rw [hcount]; omega)]

/-- Witness for C4: 32 distinct override-capable types succeed with all 32
candidates preserved; 33 fail with the cap error. -/
theorem resolveCandidates_type_cap_witness :
    (∃ out, get_implementing_args (fun _ _ => false) (fun _ => true)
        ((List.range 32).map (fun i => ⟨i, i⟩)) = .ok out ∧ out.length = 32) ∧
    get_implementing_args (fun _ _ => false) (fun _ => true)
      ((List.range 33).map (fun i => ⟨i, i⟩)) = .error .tooManyTypes := by
  constructor
  · obtain ⟨out, h1, h2, _⟩ := (resolveCandidates_type_cap (fun _ _ => false) (fun _ => true)
      ((List.range 32).map (fun i => ⟨i, i⟩)) (fun a _ => rfl)).1 (by decide)
    exact ⟨out, h1, h2.trans (by decide)⟩
  · exact (resolveCandidates_type_cap (fun _ _ => false) (fun _ => true)
      ((List.range 33).map (fun i => ⟨i, i⟩)) (fun a _ => rfl)).2 (by decide)

/-- C5 (amended): every argument whose type declares the override
capability - the library's base array type included - is represented in a
successful candidate ordering; resolveCandidates performs no exclusion of
base-type instances.  (Deferring to related candidates happens at dispatch
time inside the base type's default hook, not during resolution.) -/
theorem resolveCandidates_includes_base (sub : Nat → Nat → Bool) (hasOv : Nat → Bool)
    (args : List Arg) (out : List Arg) (a : Arg)
    (hout : get_implementing_args sub hasOv args = .ok out)
    (ha : a ∈ args) (hov : hasOv a.ty = true) :
    ∃ c ∈ out, c.ty = a.ty := by
  obtain ⟨hscan, _⟩ := get_implementing_args_ok hout
  obtain ⟨hmem, _, _⟩ := scanArgs_inv sub hasOv args
  have hty : a.ty ∈ (scanArgs sub hasOv args).1 := by
    unfold scanArgs
    rw [foldl_types_mem]
    exact Or.inr ⟨hov, a, ha, rfl⟩
  obtain ⟨c, hc, hcty⟩ := (hmem a.ty).mp hty
  exact ⟨c, hscan ▸ hc, hcty⟩

/-- Witness for C5 (amended): the base-type instance (type 0) appears in
the ordering produced for [base, subclass]. -/
theorem resolveCandidates_includes_base_witness :
    ∃ c ∈ ([⟨1, 11⟩, ⟨0, 10⟩] : List Arg), c.ty = 0 :=
  resolveCandidates_includes_base subDemo (fun _ => true) [⟨0, 10⟩, ⟨1, 11⟩]
    [⟨1, 11⟩, ⟨0, 10⟩] ⟨0, 10⟩ (by rfl) (by decide) (by rfl)

/-- Counterexample for C5 as stated: resolving [base-instance (type 0),
subclass-instance (type 1)] yields [subclass, base] - the base-type
instance appears in the candidate ordering even though a candidate of a
related type (its strict subclass) is present for it to defer to, exactly
as the cited tests test_ndarray_subclasses demand. -/
theorem resolveCandidates_base_appears_counterexample :
    get_implementing_args subDemo (fun _ => true) [⟨0, 10⟩, ⟨1, 11⟩] =
      .ok [⟨1, 11⟩, ⟨0, 10⟩] ∧
    (⟨0, 10⟩ : Arg) ∈ ([⟨1, 11⟩, ⟨0, 10⟩] : List Arg) ∧
    subDemo 1 0 = true ∧ (1 : Nat) ≠ 0 :=
  ⟨by rfl, by decide, by decide, by decide⟩

theorem tryCandidates_all_declined (hooks : Arg → HookResult) (module : String)
    (name : String) :
    ∀ (l : List Arg), (∀ c ∈ l, hooks c = HookResult.declined) →
      tryCandidates hooks module name l = .error (.noImplementation module name) := by
  intro l
  induction l with
  | nil => intro _; rfl
  | cons c rest ih =>
    intro hdecl
    unfold tryCandidates
    rw [hdecl c (List.mem_cons_self c rest)]
    exact ih (fun d hd => hdecl d (List.mem_cons_of_mem c hd))

/-- C6: when resolution yields at least one candidate and every
candidate's hook returns the not-implemented sentinel, dispatch fails with
NoImplementationFoundError carrying the call's module and qualified
name. -/
theorem dispatch_all_declined (sub : Nat → Nat → Bool) (hasOv : Nat → Bool)
    (module : String) (name : String) (hooks : Arg → HookResult)
    (defaultImpl : Nat) (args : List Arg) (cands : List Arg)
    (hres : get_implementing_args sub hasOv args = .ok cands)
    (hne : cands ≠ [])
    (hdecl : ∀ c ∈ cands, hooks c = HookResult.declined) :
    dispatch sub hasOv module name hooks defaultImpl args =
      .error (.noImplementation module name) := by
  unfold dispatch
  rw [hres]
  cases cands with
  | nil => exact absurd rfl hne
  | cons c rest =>
    show tryCandidates hooks module name (c :: rest) = _
    exact tryCandidates_all_declined hooks module name (c :: rest) hdecl

/-- Witness for C6: a sole candidate that declines makes the dispatch of
my.func fail with the error naming my.func. -/
theorem dispatch_all_declined_witness :
    dispatch subDemo (fun t => t == 5) "my" "func" (fun _ => HookResult.declined) 7
      [⟨5, 50⟩] = .error (.noImplementation "my" "func") :=
  dispatch_all_declined subDemo (fun t => t == 5) "my" "func" (fun _ => HookResult.declined)
    7 [⟨5, 50⟩] [⟨5, 50⟩] (by rfl) (by decide) (fun c _ => rfl)
